import Mathlib

/-!
Verification of the run-orchestration core of `cs_studymanager_study.py`
(code_saturne study manager): the `Case` record, the `dependency_graph`
class, the slurm batch scheduling helpers and the failure-propagation
logic, shallowly embedded as executable Lean definitions.

Python objects are modelled by values: `Case` attributes become structure
fields, in-place attribute mutation becomes functional update, `None`
becomes `Option.none`, and operations that can raise (`TypeError`,
`KeyError`, `AttributeError`) return `Option` with `none` for the raise.
Python dict membership on `Case` keys is object identity; the model uses
value equality, which agrees with identity for graphs whose cases are
pairwise distinct values (as in every property below).
-/

set_option maxRecDepth 8000

namespace CodeSaturne

/-- Lifecycle states of a run directory, from `cs_case.case_state`
(imported by `cs_studymanager_study.py`; the class itself is not among
the studied sources).  Modelled from the spec: states form the
progression UNKNOWN, STAGING, STAGED, PREPROCESSED, RUNNING, COMPUTED,
FINALIZING, FINALIZED, with FAILED and EXCEEDED_TIME_LIMIT as the
failure outcomes. -/
inductive case_state where
  | UNKNOWN
  | STAGING
  | STAGED
  | PREPROCESSED
  | RUNNING
  | COMPUTED
  | FINALIZING
  | FINALIZED
  | FAILED
  | EXCEEDED_TIME_LIMIT
deriving DecidableEq, Repr

/-- The attributes of `class Case` (`cs_studymanager_study.py`) read or
written by the dependency graph, the slurm scheduling code and the
failure-propagation logic.  `level` is `None` until the graph computes
it; `depends` holds the composite key of the parent case (`None` or the
empty string meaning no dependency, by Python truthiness);
`n_procs` and `expected_time` (minutes) are the resolved integer
resources. -/
structure Case where
  study : String
  label : String
  resu : String := "RESU"
  run_id : String
  n_procs : Nat := 1
  expected_time : Nat := 1
  depends : Option String := none
  level : Option Nat := none
  job_id : Option String := none
  compute : Bool := true
  compare : Bool := true
  plot : Bool := true
  no_restart : Bool := false
  is_compiled : String := "not done"
deriving DecidableEq, Repr

/-- The composite key `study + '/' + label + '/' + resu + '/' + run_id`
recomputed by `add_node` for each scanned neighbor (`neighbor_name`). -/
def Case.compositeKey (c : Case) : String :=
  c.study ++ "/" ++ c.label ++ "/" ++ c.resu ++ "/" ++ c.run_id

/-- `self.title`, set in `Case.__init__` to
`study + "/" + label + "/" + resu + "/" + run_id`, i.e. the same string
as the composite key. -/
def Case.title (c : Case) : String := c.compositeKey

/-- Python truthiness of a `depends` attribute: `None` and the empty
string are falsy, any other string is truthy. -/
def truthyDepends (d : Option String) : Prop := d ≠ none ∧ d ≠ some ""

instance (d : Option String) : Decidable (truthyDepends d) := by
  unfold truthyDepends; infer_instance

/-- `dependency_graph.graph_dict`: an insertion-ordered mapping from each
case to its single dependency (`None` when the case has none), plus the
two running maxima maintained by `add_node`.  Each entry holds the
current snapshot of the (mutated) case object used as the dict key. -/
structure dependency_graph where
  graph_dict : List (Case × Option Case) := []
  max_level : Nat := 0
  max_proc : Nat := 0
deriving DecidableEq, Repr

/-- Dict lookup `self.graph_dict[node]` (also deciding membership
`node in self.graph_dict`), scanning in insertion order. -/
def dictFind : List (Case × Option Case) → Case → Option (Option Case)
  | [], _ => none
  | p :: rest, k => if p.1 = k then some p.2 else dictFind rest k

/-- The scan `for neighbor in self.graph_dict: if neighbor_name ==
case.depends: ... break` of `add_node`: first node whose composite key
equals `dep`. -/
def findNeighbor : List (Case × Option Case) → String → Option Case
  | [], _ => none
  | p :: rest, dep => if p.1.compositeKey = dep then some p.1 else findNeighbor rest dep

/-- `dependency_graph.add_dependency`.  `if not self.graph_dict[node1]`
records the edge only when the stored value is `None` (falsy); a stored
`Case` is truthy (the class defines no `__bool__`), so a second
dependency is refused with an error message and the mapping is left
unchanged.  A `node1` absent from `graph_dict` raises `KeyError`,
modelled as `none`. -/
def add_dependency (g : dependency_graph) (node1 node2 : Case) :
    Option (dependency_graph × Option String) :=
  match dictFind g.graph_dict node1 with
  | none => none
  | some none =>
      some ({ g with graph_dict :=
                g.graph_dict.map (fun p => if p.1 = node1 then (p.1, some node2) else p) },
            none)
  | some (some _) =>
      some (g, some ("Error in dependency graph" ++ node1.title
        ++ " can only have one dependency.\n"))

/-- `dependency_graph.add_node`.  Inserts `case` when absent (re-adding
is a no-op); with a truthy `case.depends` it scans the dict (insertion
order, including the just-inserted case) for a matching composite key:
on a match, `add_dependency` records the edge (its return value is
discarded by the source) and `case.level` is set in place to the
parent's level + 1, which the model renders by appending the updated
entry; with no match, a case whose `level` is still `None` degrades to
level 0 with a warning message, while a case whose level was already
computed keeps it silently.  With a falsy `depends` the level is set
to 0.  `max_proc` is updated on every insertion; `neighbor.level + 1`
on a `None` level raises `TypeError` (`none`; only reachable through a
self-referential `depends`, in which case the model keeps the
pre-mutation snapshot as the stored edge — no property below involves
one). -/
def add_node (g : dependency_graph) (case : Case) :
    Option (dependency_graph × Option String) :=
  if (dictFind g.graph_dict case).isSome then some (g, none)
  else
    let d0 := g.graph_dict ++ [(case, none)]
    if truthyDepends case.depends then
      match findNeighbor d0 (case.depends.getD "") with
      | some neighbor =>
        match neighbor.level with
        | none => none
        | some nl =>
          some ({ graph_dict := g.graph_dict ++
                    [({ case with level := some (nl + 1) }, some neighbor)],
                  max_level := max g.max_level (nl + 1),
                  max_proc := max g.max_proc case.n_procs }, none)
      | none =>
        match case.level with
        | none =>
          some ({ g with
                  graph_dict := g.graph_dict ++ [({ case with level := some 0 }, none)],
                  max_proc := max g.max_proc case.n_procs },
                some ("Dependency " ++ case.depends.getD "" ++ " was not found in the list "
                  ++ "of considered cases. " ++ case.title ++ " will be considered "
                  ++ "without dependency in the graph. Please check that the "
                  ++ "required results exist.\n"))
        | some _ =>
          some ({ g with
                  graph_dict := d0,
                  max_proc := max g.max_proc case.n_procs }, none)
    else
      some ({ g with
              graph_dict := g.graph_dict ++ [({ case with level := some 0 }, none)],
              max_proc := max g.max_proc case.n_procs }, none)

/-- Adding a list of cases in order, stopping on a raised exception
(the driver calls `add_node` once per parsed case). -/
def addNodeSeq (g : dependency_graph) : List Case → Option dependency_graph
  | [] => some g
  | c :: rest => do
      let r ← add_node g c
      addNodeSeq r.1 rest

/-- `dependency_graph.nodes`: the cases of the graph in insertion order. -/
def nodes (g : dependency_graph) : List Case := g.graph_dict.map Prod.fst

/-- Python iteration over a stored edge value: `graph_dict[node]` is
either `None` or a single `Case`, and neither is iterable (`Case`
defines no `__iter__` / `__getitem__`), so
`for neighbor in self.graph_dict[node]` raises `TypeError` for every
possible stored value. -/
def iterDependValue (_v : Option Case) : Option (List Case) := none

/-- `dependency_graph.dependencies`: accumulates `(node, neighbor)`
pairs, but the inner `for neighbor in self.graph_dict[node]` raises
`TypeError` (modelled as `none`) on the very first node. -/
def dependencies (g : dependency_graph) : Option (List (Case × Case)) :=
  g.graph_dict.foldlM
    (fun acc p =>
      (iterDependValue p.2).map (fun neighbors =>
        neighbors.foldl
          (fun acc2 neighbor =>
            if (neighbor, p.1) ∈ acc2 then acc2 else acc2 ++ [(p.1, neighbor)])
          acc))
    []

/-- `dependency_graph.__str__`: formats the node titles, then iterates
over `self.dependencies()`, so it propagates the `TypeError` raised
there on every non-empty graph. -/
def graphStr (g : dependency_graph) : Option String :=
  let res := (nodes g).foldl (fun r n => r ++ n.title ++ " ") "\nList of cases: "
  (dependencies g).map (fun deps =>
    deps.foldl (fun r d => r ++ "\n" ++ d.1.title ++ " depends on " ++ d.2.title)
      (res ++ "\nList of dependencies: "))

/-- The level filter of `extract_sub_graph`:
`int(node.level) == int(filter_level)`.  `int(None)` raises `TypeError`
(`none`) when the node's level was never computed. -/
def node_filter_l : Option Nat → Case → Option Bool
  | none, _ => some true
  | some fl, c => c.level.map (fun l => l == fl)

/-- The n_procs filter of `extract_sub_graph`:
`int(node.n_procs) == int(filter_n_procs)`. -/
def node_filter_p : Option Nat → Case → Bool
  | none, _ => true
  | some fp, c => c.n_procs == fp

/-- One iteration of the node loop of
`dependency_graph.extract_sub_graph`: apply both filters, and re-run
`add_node` on the kept node.  A node with a `None` level raises
`TypeError` in the filter; a non-`None` warning from `add_node` reaches
`self.reporting`, which does not exist on `dependency_graph`
(`AttributeError`); both raises are modelled as `none`. -/
def extract_step (filter_level filter_n_procs : Option Nat)
    (sub : dependency_graph) (p : Case × Option Case) :
    Option dependency_graph := do
  let keep_l ← node_filter_l filter_level p.1
  let keep_p := node_filter_p filter_n_procs p.1
  if keep_l && keep_p then
    match add_node sub p.1 with
    | none => none
    | some (sub1, msg) => if msg.isSome then none else some sub1
  else
    some sub

/-- `dependency_graph.extract_sub_graph`: rebuilds a fresh graph from
the nodes passing the level / n_procs filters by re-running `add_node`
on each. -/
def extract_sub_graph (g : dependency_graph)
    (filter_level filter_n_procs : Option Nat) : Option dependency_graph :=
  g.graph_dict.foldlM (extract_step filter_level filter_n_procs)
    ({} : dependency_graph)

/-- The value of the level filter on a node whose level was computed,
conjoined with the n_procs filter: the membership test for the
(filter_level, filter_n_procs) cell. -/
def keepCase (filter_level filter_n_procs : Option Nat) (c : Case) : Bool :=
  (match filter_level, c.level with
   | none, _ => true
   | some fl, some l => l == fl
   | some _, none => false) && node_filter_p filter_n_procs c

/-- The loop state of the greedy packing in `Studies.run_slurm_batches`
for one (level, n_procs) cell: the batches already submitted (each
recorded as its `cases_list`), the batch under construction, and the
accumulators `cur_batch_size` and `batch_total_time`.  `expected_time`
values are integers, so the Python float accumulator is exactly a
natural-number sum. -/
structure SlurmPackState where
  batches : List (List Case) := []
  cur_batch : List Case := []
  cur_batch_size : Nat := 0
  batch_total_time : Nat := 0
deriving DecidableEq, Repr

/-- One iteration of the case loop of `Studies.run_slurm_batches`: cases
with `compute` false or a failed compilation are skipped; otherwise the
case joins the current batch when the batch is empty or its time plus
the case's `expected_time` stays strictly below the wall-time budget
(else `submit_prev` is set); the current batch is then submitted once
its size reaches the batch-size budget, or `submit_prev` was set, or
its total time reached the wall-time budget; finally a `submit_prev`
case starts the next batch. -/
def slurm_pack_step (slurm_batch_size slurm_batch_wtime : Nat)
    (st : SlurmPackState) (c : Case) : SlurmPackState :=
  if c.compute && (c.is_compiled != "KO") then
    let st1 :=
      if st.cur_batch_size = 0 ∨
         st.batch_total_time + c.expected_time < slurm_batch_wtime then
        { st with
          cur_batch := st.cur_batch ++ [c],
          cur_batch_size := st.cur_batch_size + 1,
          batch_total_time := st.batch_total_time + c.expected_time }
      else st
    let st2 :=
      if slurm_batch_size ≤ st1.cur_batch_size ∨
         ¬ (st.cur_batch_size = 0 ∨
            st.batch_total_time + c.expected_time < slurm_batch_wtime) ∨
         slurm_batch_wtime ≤ st1.batch_total_time then
        { batches := st1.batches ++ [st1.cur_batch], cur_batch := [],
          cur_batch_size := 0, batch_total_time := 0 }
      else st1
    if ¬ (st.cur_batch_size = 0 ∨
          st.batch_total_time + c.expected_time < slurm_batch_wtime) then
      { st2 with
        cur_batch := st2.cur_batch ++ [c],
        cur_batch_size := st2.cur_batch_size + 1,
        batch_total_time := st2.batch_total_time + c.expected_time }
    else st2
  else st

/-- The case loop of `Studies.run_slurm_batches` over one
(level, n_procs) cell, followed by the trailing
`if cur_batch_size > 0` submission of the last partial batch.  Returns
the submitted batches in submission order. -/
def run_slurm_batches_cell (slurm_batch_size slurm_batch_wtime : Nat)
    (cell_cases : List Case) : List (List Case) :=
  let st := cell_cases.foldl (slurm_pack_step slurm_batch_size slurm_batch_wtime) {}
  if st.cur_batch_size > 0 then st.batches ++ [st.cur_batch] else st.batches

/-- The counting loops of `Studies.check_slurm_batches`: for each level
from 0 to `max_level` and each process count from 1 to `max_proc`,
count the cases of the extracted sub-graph whose `expected_time` is
below 5 minutes.  A raise inside `extract_sub_graph` propagates. -/
def count_short_cases (g : dependency_graph) : Option Nat :=
  (List.range (g.max_level + 1)).foldlM
    (fun acc level =>
      (List.range g.max_proc).foldlM
        (fun acc2 nproc => do
          let sub ← extract_sub_graph g (some level) (some (nproc + 1))
          pure (sub.graph_dict.foldl
            (fun n p => if p.1.expected_time < 5 then n + 1 else n) acc2))
        acc)
    0

/-- `Studies.check_slurm_batches`: when the configured batch size is
still the default 1 and more than 50 cases over the whole graph have
`expected_time < 5`, the batch size is raised to 50; otherwise it is
left as configured.  Returns the effective `slurm_batch_size`. -/
def check_slurm_batches (g : dependency_graph) (slurm_batch_size : Nat) :
    Option Nat :=
  if slurm_batch_size = 1 then
    (count_short_cases g).map
      (fun nb_cases_short => if 50 < nb_cases_short then 50 else slurm_batch_size)
  else some slurm_batch_size

/-- The dependency-existence check ending `Case.__query_dependence__`,
once a dependency key has been inferred from `setup.xml` or the
parametric arguments: with a truthy inferred `depends`, if the
dependency's run folder exists its state is inspected — FINALIZED drops
the dependency, any other state keeps it and defensively disables the
case (`no_restart`, and `compute` / `compare` / `plot` cleared) — and a
missing run folder keeps the dependency with the case untouched.  The
filesystem check and the `get_case_state` inspection are inputs.
Returns the updated case and the value returned for `self.depends`. -/
def query_dependence_resolve (c : Case) (depends : Option String)
    (run_folder_is_dir : Bool) (state : case_state) : Case × Option String :=
  if truthyDepends depends then
    if run_folder_is_dir then
      if state = case_state.FINALIZED then (c, none)
      else ({ c with no_restart := true, compute := false,
                     compare := false, plot := false }, depends)
    else (c, depends)
  else (c, none)

/-- The tail of `Case.run` after the external command returned exit code
`error0` (`run_studymanager_command` is an input; spec: 0 = success,
non-zero = failure, with bit 2 an optional memory-leak flag): under
`mem_log`, a set bit 2 records a leak and is subtracted from the code;
a remaining non-zero code clears `compare` and `plot`.  Returns the
updated case, the adjusted error and the leak flag. -/
def case_run_update (c : Case) (error0 : Nat) (mem_log : Bool) :
    Case × Nat × Bool :=
  let p : Nat × Bool :=
    if mem_log && (error0 &&& 2 != 0) then (error0 - 2, true) else (error0, false)
  (if p.1 ≠ 0 then { c with compare := false, plot := false } else c, p.1, p.2)

/-- The sub-domain staging reduction of `Case.prepare_run_folder` for a
coupled case: `retval` starts at 1 and each code_saturne subdomain's
staging exit code is folded in by `retval = min(node_retval, retval)`
(source comment: "negative retcode is kept").  The per-subdomain exit
codes of `run_studymanager_command` are inputs (spec: 0 = success,
non-zero = failure). -/
def coupled_stage_retval (node_retvals : List Int) : Int :=
  node_retvals.foldl (fun retval node_retval => min node_retval retval) 1

/-! Concrete fixtures used to instantiate the theorems below. -/

/-- A case with no dependency. -/
def caseA : Case := { study := "STUDY", label := "CA", run_id := "run1" }

/-- A case depending on `caseA` by composite key. -/
def caseB : Case :=
  { study := "STUDY", label := "CB", run_id := "run1",
    depends := some "STUDY/CA/RESU/run1" }

/-- A case depending on `caseB` by composite key. -/
def caseC : Case :=
  { study := "STUDY", label := "CC", run_id := "run1",
    depends := some "STUDY/CB/RESU/run1" }

/-- A case with a dangling dependency key. -/
def caseD : Case :=
  { study := "STUDY", label := "CD", run_id := "run1",
    depends := some "STUDY/NOPE/RESU/run1" }

/-- `caseA` as stored after `add_node` (level computed to 0). -/
def caseA0 : Case := { caseA with level := some 0 }

/-- `caseB` as stored after `add_node` (level computed to 1). -/
def caseB1 : Case := { caseB with level := some 1 }

/-- The two-node graph produced by adding `caseA` then `caseB`. -/
def graphAB : dependency_graph :=
  { graph_dict := [(caseA0, none), (caseB1, some caseA0)],
    max_level := 1, max_proc := 1 }

/-- A computable case with `expected_time = 3`. -/
def caseT3 : Case :=
  { study := "STUDY", label := "CT", run_id := "run1", expected_time := 3 }

/-- A level-0 case with `expected_time = 3` (short). -/
def caseE3 : Case :=
  { study := "STUDY", label := "CE", run_id := "run1",
    level := some 0, expected_time := 3 }

/-- A level-0 case with `expected_time = 7` (not short). -/
def caseF7 : Case :=
  { study := "STUDY", label := "CF", run_id := "run1",
    level := some 0, expected_time := 7 }

/-- A two-node dependency-free graph for the batch-size witnesses. -/
def graphEF : dependency_graph :=
  { graph_dict := [(caseE3, none), (caseF7, none)],
    max_level := 0, max_proc := 1 }

/-- A plain case for the failure-propagation witnesses. -/
def caseX : Case := { study := "STUDY", label := "CX", run_id := "run1" }

/-! Helper lemmas about the graph primitives. -/

lemma dictFind_eq_none_iff (d : List (Case × Option Case)) (k : Case) :
    dictFind d k = none ↔ ∀ p ∈ d, p.1 ≠ k := by
  induction d with
  | nil => simp [dictFind]
  | cons p rest ih => by_cases h : p.1 = k <;> simp [dictFind, h, ih]

lemma findNeighbor_eq_none_iff (d : List (Case × Option Case)) (dep : String) :
    findNeighbor d dep = none ↔ ∀ p ∈ d, p.1.compositeKey ≠ dep := by
  induction d with
  | nil => simp [findNeighbor]
  | cons p rest ih => by_cases h : p.1.compositeKey = dep <;> simp [findNeighbor, h, ih]

lemma compositeKey_update_level (c : Case) (v : Option Nat) :
    Case.compositeKey { c with level := v } = c.compositeKey := rfl

lemma compositeKey_ne_empty (c : Case) : c.compositeKey ≠ "" := by
  intro h
  have hlen : (Case.compositeKey c).length = 0 := by rw [h]; rfl
  have hslash : ("/" : String).length = 1 := rfl
  simp only [Case.compositeKey, String.length_append, hslash] at hlen
  omega

lemma update_level_self (c : Case) (l : Nat) (h : c.level = some l) :
    { c with level := some l } = c := by
  cases c
  simp_all

/-- `add_node` on an absent case with a falsy `depends`: the case is
appended at level 0 with no edge and no message. -/
lemma add_node_no_depends (g : dependency_graph) (c : Case)
    (hmem : dictFind g.graph_dict c = none)
    (hdep : ¬ truthyDepends c.depends) :
    add_node g c =
      some ({ g with
              graph_dict := g.graph_dict ++ [({ c with level := some 0 }, none)],
              max_proc := max g.max_proc c.n_procs }, none) := by
  simp [add_node, hmem, hdep]

/-- `add_node` on an absent case whose truthy `depends` matches a
neighbor with a computed level: the edge is recorded and the level set
to the parent's level + 1. -/
lemma add_node_match (g : dependency_graph) (c nb : Case) (nl : Nat)
    (hmem : dictFind g.graph_dict c = none)
    (hdep : truthyDepends c.depends)
    (hfind : findNeighbor (g.graph_dict ++ [(c, none)]) (c.depends.getD "") = some nb)
    (hnl : nb.level = some nl) :
    add_node g c =
      some ({ graph_dict := g.graph_dict ++
                [({ c with level := some (nl + 1) }, some nb)],
              max_level := max g.max_level (nl + 1),
              max_proc := max g.max_proc c.n_procs }, none) := by
  simp [add_node, hmem, hdep, hfind, hnl]

/-- `add_node` on an absent fresh case (level `None`) with a truthy
dangling `depends`: the level degrades to 0 and a warning is returned. -/
lemma add_node_dangling_fresh (g : dependency_graph) (c : Case)
    (hmem : dictFind g.graph_dict c = none)
    (hdep : truthyDepends c.depends)
    (hfind : findNeighbor (g.graph_dict ++ [(c, none)]) (c.depends.getD "") = none)
    (hlev : c.level = none) :
    add_node g c =
      some ({ g with
              graph_dict := g.graph_dict ++ [({ c with level := some 0 }, none)],
              max_proc := max g.max_proc c.n_procs },
            some ("Dependency " ++ c.depends.getD "" ++ " was not found in the list "
              ++ "of considered cases. " ++ c.title ++ " will be considered "
              ++ "without dependency in the graph. Please check that the "
              ++ "required results exist.\n")) := by
  simp [add_node, hmem, hdep, hfind, hlev]

/-- `add_node` on an absent case with a truthy dangling `depends` whose
level was already computed: the level is kept and no warning raised. -/
lemma add_node_dangling_stale (g : dependency_graph) (c : Case) (l : Nat)
    (hmem : dictFind g.graph_dict c = none)
    (hdep : truthyDepends c.depends)
    (hfind : findNeighbor (g.graph_dict ++ [(c, none)]) (c.depends.getD "") = none)
    (hlev : c.level = some l) :
    add_node g c =
      some ({ g with
              graph_dict := g.graph_dict ++ [(c, none)],
              max_proc := max g.max_proc c.n_procs }, none) := by
  simp [add_node, hmem, hdep, hfind, hlev]

/-! Claim theorems. -/

/-- C2: for every graph and every node that already has a dependency
edge recorded, `add_dependency` with a second dependency returns a
non-nil error message and leaves the graph (in particular the edge
mapping, which keeps the first dependency) unchanged. -/
theorem claim_C2 (g : dependency_graph) (node1 node2 dep : Case)
    (h : dictFind g.graph_dict node1 = some (some dep)) :
    add_dependency g node1 node2 =
      some (g, some ("Error in dependency graph" ++ node1.title
        ++ " can only have one dependency.\n")) := by
  simp [add_dependency, h]

/-- Witness for C2 on the concrete graph `graphAB`, whose node `caseB1`
already depends on `caseA0`. -/
theorem claim_C2_witness :
    add_dependency graphAB caseB1 caseC =
      some (graphAB, some ("Error in dependency graph" ++ caseB1.title
        ++ " can only have one dependency.\n")) :=
  claim_C2 graphAB caseB1 caseC caseA0 (by decide)

/-- C7: for a case with a truthy inferred dependency, the dependence
check of `Case.__query_dependence__` (i) keeps the dependency and sets
`no_restart` while clearing `compute`, `compare`, `plot` when the run
folder exists in a non-FINALIZED state, (ii) keeps the dependency with
all flags untouched when the run folder does not exist, and (iii) drops
the dependency when the state is FINALIZED. -/
theorem claim_C7 (c : Case) (d : Option String) (ex : Bool) (st : case_state)
    (hd : truthyDepends d) :
    (ex = true → st ≠ case_state.FINALIZED →
      query_dependence_resolve c d ex st =
        ({ c with no_restart := true, compute := false,
                  compare := false, plot := false }, d)) ∧
    (ex = false → query_dependence_resolve c d ex st = (c, d)) ∧
    (ex = true → st = case_state.FINALIZED →
      query_dependence_resolve c d ex st = (c, none)) := by
  refine ⟨fun h1 h2 => ?_, fun h1 => ?_, fun h1 h2 => ?_⟩ <;>
    simp [query_dependence_resolve, hd, h1]
  · simp [h2]
  · simp [h2]

/-- Witness for C7: a RUNNING (non-FINALIZED) dependency run folder
defensively disables `caseX`. -/
theorem claim_C7_witness :
    query_dependence_resolve caseX (some "STUDY/CA/RESU/run1") true
        case_state.RUNNING =
      ({ caseX with no_restart := true, compute := false,
                    compare := false, plot := false },
       some "STUDY/CA/RESU/run1") :=
  (claim_C7 caseX (some "STUDY/CA/RESU/run1") true case_state.RUNNING
    (by decide)).1 rfl (by decide)

/-- C8 counterexample: with `mem_log` enabled, the external command
returning the non-zero exit code 2 (the memory-leak bit) leaves
`compare` and `plot` untouched, contradicting the claim that every
non-zero exit code clears them. -/
theorem claim_C8_counterexample :
    (2 : Nat) ≠ 0 ∧
    (case_run_update caseX 2 true).1.compare = true ∧
    (case_run_update caseX 2 true).1.plot = true := by
  refine ⟨by decide, ?_, ?_⟩ <;> rfl

/-- C8 (amended): after removing the memory-leak bit (only when
`mem_log` is enabled), a remaining non-zero exit code clears `compare`
and `plot` and leaves `compute` (and everything else) unchanged; a zero
remaining code leaves the case untouched.  Without `mem_log` the
remaining code is the raw exit code, so any non-zero exit clears
`compare` and `plot`. -/
theorem claim_C8_amended (c : Case) (error0 : Nat) (mem_log : Bool) :
    ((case_run_update c error0 mem_log).2.1 ≠ 0 →
      (case_run_update c error0 mem_log).1 =
        { c with compare := false, plot := false }) ∧
    ((case_run_update c error0 mem_log).2.1 = 0 →
      (case_run_update c error0 mem_log).1 = c) ∧
    (mem_log = false → (case_run_update c error0 mem_log).2.1 = error0) := by
  refine ⟨fun h => ?_, fun h => ?_, fun h => ?_⟩
  · simp only [case_run_update] at h ⊢
    split_ifs at h ⊢ <;> simp_all
  · simp only [case_run_update] at h ⊢
    split_ifs at h ⊢ <;> simp_all
  · subst h
    simp [case_run_update]

/-- Witness for C8 (amended): without `mem_log`, exit code 1 clears
`compare` and `plot` of `caseX`. -/
theorem claim_C8_amended_witness :
    (case_run_update caseX 1 false).1 =
      { caseX with compare := false, plot := false } :=
  (claim_C8_amended caseX 1 false).1 (by decide)

/-- C9 counterexample: subdomain staging codes `[0, 1]` — one success
and one failure (spec: non-zero = failure) — reduce to the overall
result 0, i.e. the case's staging is treated as a success, so a
subdomain staging failure does not always fail the whole case. -/
theorem claim_C9_counterexample :
    (1 : Int) ∈ [(0 : Int), 1] ∧ (1 : Int) ≠ 0 ∧
      coupled_stage_retval [0, 1] = 0 := by
  refine ⟨by decide, by decide, ?_⟩ ; rfl

lemma foldl_min_le_init (l : List Int) (a : Int) :
    l.foldl (fun retval x => min x retval) a ≤ a := by
  induction l generalizing a with
  | nil => simp
  | cons y tl ih =>
    calc tl.foldl (fun retval x => min x retval) (min y a) ≤ min y a := ih _
    _ ≤ a := min_le_right _ _

lemma foldl_min_le_mem (l : List Int) (a x : Int) :
    x ∈ l → l.foldl (fun retval y => min y retval) a ≤ x := by
  induction l generalizing a with
  | nil => intro hx; cases hx
  | cons y tl ih =>
    intro hx
    rcases List.mem_cons.mp hx with rfl | h
    · exact le_trans (foldl_min_le_init tl _) (min_le_left _ _)
    · exact ih _ h

lemma foldl_min_all_zero (l : List Int) (a : Int) (ha : 0 ≤ a)
    (h : ∀ x ∈ l, x = 0) :
    l ≠ [] → l.foldl (fun retval y => min y retval) a = 0 := by
  induction l generalizing a with
  | nil => intro hl; cases hl rfl
  | cons y tl ih =>
    intro _
    have hy : y = 0 := h y (by simp)
    subst hy
    have hmin : min (0 : Int) a = 0 := min_eq_left ha
    rcases eq_or_ne tl [] with rfl | htl
    · simp [hmin]
    · simpa [hmin] using ih 0 le_rfl (fun x hx => h x (List.mem_cons_of_mem _ hx)) htl

/-- C9 (amended): the overall staging result of a coupled case is the
fold of `min` over the subdomain exit codes seeded at 1 — a
"most negative return code wins" reduction — so the result never
exceeds 1, is bounded by every subdomain code, and any subdomain
returning a negative code fails the whole case; when every subdomain
returns 0, the overall result is 0 (success).  (A subdomain failure
with a positive code can however be masked: see the counterexample.) -/
theorem claim_C9_amended (codes : List Int) :
    coupled_stage_retval codes ≤ 1 ∧
    (∀ x ∈ codes, coupled_stage_retval codes ≤ x) ∧
    (∀ x ∈ codes, x < 0 → coupled_stage_retval codes < 0) ∧
    ((∀ x ∈ codes, x = 0) → codes ≠ [] → coupled_stage_retval codes = 0) := by
  refine ⟨foldl_min_le_init codes 1, fun x hx => foldl_min_le_mem codes 1 x hx,
    fun x hx hneg => lt_of_le_of_lt (foldl_min_le_mem codes 1 x hx) hneg,
    fun hall => foldl_min_all_zero codes 1 (by norm_num) hall⟩

/-- Witness for C9 (amended): the subdomain code -2 drives the overall
result of `[0, -2]` below zero. -/
theorem claim_C9_amended_witness : coupled_stage_retval [0, -2] < 0 :=
  (claim_C9_amended [0, -2]).2.2.1 (-2) (by decide) (by decide)

/-- C10: `dependencies()` returns `[]` on the empty graph, but raises
`TypeError` (modelled as `none`) on every non-empty graph, because it
iterates over each stored dependency value, which is `None` or a single
non-iterable `Case`; `__str__`, which calls it, raises as well. -/
theorem claim_C10 :
    dependencies ({} : dependency_graph) = some [] ∧
    ∀ g : dependency_graph, g.graph_dict ≠ [] →
      dependencies g = none ∧ graphStr g = none := by
  constructor
  · rfl
  · intro g hg
    obtain ⟨p, rest, hrest⟩ : ∃ p rest, g.graph_dict = p :: rest := by
      cases h : g.graph_dict with
      | nil => exact absurd h hg
      | cons p rest => exact ⟨p, rest, rfl⟩
    constructor
    · simp [dependencies, hrest, iterDependValue]
    · simp [graphStr, dependencies, hrest, iterDependValue]

/-- Witness for C10 on the concrete non-empty graph `graphAB`. -/
theorem claim_C10_witness :
    dependencies graphAB = none ∧ graphStr graphAB = none :=
  claim_C10.2 graphAB (by decide)

lemma truthyDepends_some (k : String) (hk : k ≠ "") : truthyDepends (some k) :=
  ⟨by simp, by simpa⟩

/-- C1: adding a chain A, B, C in order to an empty graph, where B's
`depends` names A's composite key and C's names B's (keys pairwise
distinct), yields `level(A) = 0`, `level(B) = 1`, `level(C) = 2` and
`max_level = 2`. -/
theorem claim_C1 (A B C : Case)
    (hA : A.depends = none)
    (hB : B.depends = some A.compositeKey)
    (hC : C.depends = some B.compositeKey)
    (hAB : A.compositeKey ≠ B.compositeKey)
    (hAC : A.compositeKey ≠ C.compositeKey)
    (hBC : B.compositeKey ≠ C.compositeKey) :
    ∃ g : dependency_graph,
      addNodeSeq {} [A, B, C] = some g ∧
      g.graph_dict.map (fun p => (p.1.compositeKey, p.1.level)) =
        [(A.compositeKey, some 0), (B.compositeKey, some 1),
         (C.compositeKey, some 2)] ∧
      g.max_level = 2 := by
  have hA0B : ({ A with level := some 0 } : Case) ≠ B := by
    intro h
    have h2 := congrArg Case.compositeKey h
    exact hAB h2
  have hA0C : ({ A with level := some 0 } : Case) ≠ C := by
    intro h
    have h2 := congrArg Case.compositeKey h
    exact hAC h2
  have hB1C : ({ B with level := some 1 } : Case) ≠ C := by
    intro h
    have h2 := congrArg Case.compositeKey h
    exact hBC h2
  have e1 : add_node {} A =
      some ({ graph_dict := [({ A with level := some 0 }, none)],
              max_level := 0, max_proc := A.n_procs }, none) := by
    have h := add_node_no_depends {} A rfl (by simp [truthyDepends, hA])
    simpa using h
  have e2 : add_node { graph_dict := [({ A with level := some 0 }, none)],
                       max_level := 0, max_proc := A.n_procs } B =
      some ({ graph_dict := [({ A with level := some 0 }, none),
                             ({ B with level := some 1 },
                              some { A with level := some 0 })],
              max_level := 1, max_proc := max A.n_procs B.n_procs }, none) := by
    have hmem : dictFind [({ A with level := some 0 }, none)] B = none := by
      simp [dictFind, hA0B]
    have hdep : truthyDepends B.depends := by
      rw [hB]; exact truthyDepends_some _ (compositeKey_ne_empty A)
    have hfind : findNeighbor ([({ A with level := some 0 }, none)] ++ [(B, none)])
        (B.depends.getD "") = some { A with level := some 0 } := by
      rw [hB]
      simp [findNeighbor, compositeKey_update_level]
    have h := add_node_match
      { graph_dict := [({ A with level := some 0 }, none)],
        max_level := 0, max_proc := A.n_procs }
      B { A with level := some 0 } 0 hmem hdep hfind rfl
    simpa using h
  have e3 : add_node { graph_dict := [({ A with level := some 0 }, none),
                                      ({ B with level := some 1 },
                                       some { A with level := some 0 })],
                       max_level := 1, max_proc := max A.n_procs B.n_procs } C =
      some ({ graph_dict := [({ A with level := some 0 }, none),
                             ({ B with level := some 1 },
                              some { A with level := some 0 }),
                             ({ C with level := some 2 },
                              some { B with level := some 1 })],
              max_level := 2,
              max_proc := max (max A.n_procs B.n_procs) C.n_procs }, none) := by
    have hmem : dictFind [({ A with level := some 0 }, none),
                          ({ B with level := some 1 },
                           some { A with level := some 0 })] C = none := by
      simp [dictFind, hA0C, hB1C]
    have hdep : truthyDepends C.depends := by
      rw [hC]; exact truthyDepends_some _ (compositeKey_ne_empty B)
    have hfind : findNeighbor ([({ A with level := some 0 }, none),
                                ({ B with level := some 1 },
                                 some { A with level := some 0 })] ++ [(C, none)])
        (C.depends.getD "") = some { B with level := some 1 } := by
      rw [hC]
      simp [findNeighbor, compositeKey_update_level, hAB]
    have h := add_node_match
      { graph_dict := [({ A with level := some 0 }, none),
                       ({ B with level := some 1 },
                        some { A with level := some 0 })],
        max_level := 1, max_proc := max A.n_procs B.n_procs }
      C { B with level := some 1 } 1 hmem hdep hfind rfl
    simpa using h
  refine ⟨{ graph_dict := [({ A with level := some 0 }, none),
                           ({ B with level := some 1 },
                            some { A with level := some 0 }),
                           ({ C with level := some 2 },
                            some { B with level := some 1 })],
            max_level := 2,
            max_proc := max (max A.n_procs B.n_procs) C.n_procs },
          ?_, ?_, ?_⟩
  · simp [addNodeSeq, e1, e2, e3]
  · simp [compositeKey_update_level]
  · rfl

/-- Witness for C1 on the concrete chain `caseA`, `caseB`, `caseC`. -/
theorem claim_C1_witness :
    ∃ g : dependency_graph,
      addNodeSeq {} [caseA, caseB, caseC] = some g ∧
      g.graph_dict.map (fun p => (p.1.compositeKey, p.1.level)) =
        [(caseA.compositeKey, some 0), (caseB.compositeKey, some 1),
         (caseC.compositeKey, some 2)] ∧
      g.max_level = 2 :=
  claim_C1 caseA caseB caseC rfl (by decide) (by decide)
    (by decide) (by decide) (by decide)

/-- C3: a fresh case (level not yet computed) whose truthy `depends`
matches no composite key in the graph (nor its own) is still inserted,
at level 0, and `add_node` returns a non-nil warning; the node is
appended to `graph.nodes()`. -/
theorem claim_C3 (g : dependency_graph) (c : Case)
    (hlev : c.level = none)
    (hdep : truthyDepends c.depends)
    (hmem : dictFind g.graph_dict c = none)
    (hnomatch : ∀ p ∈ g.graph_dict, c.depends ≠ some p.1.compositeKey)
    (hself : c.depends ≠ some c.compositeKey) :
    ∃ w : String,
      add_node g c =
        some ({ g with
                graph_dict := g.graph_dict ++ [({ c with level := some 0 }, none)],
                max_proc := max g.max_proc c.n_procs }, some w) ∧
      nodes { g with
              graph_dict := g.graph_dict ++ [({ c with level := some 0 }, none)],
              max_proc := max g.max_proc c.n_procs } =
        nodes g ++ [{ c with level := some 0 }] := by
  obtain ⟨d, hd⟩ : ∃ d, c.depends = some d := by
    cases hcd : c.depends with
    | none => exact absurd hcd hdep.1
    | some d => exact ⟨d, rfl⟩
  have hfind : findNeighbor (g.graph_dict ++ [(c, none)]) (c.depends.getD "") = none := by
    rw [findNeighbor_eq_none_iff]
    intro p hp
    rcases List.mem_append.mp hp with h | h
    · intro hk
      rw [hd] at hk
      simp only [Option.getD_some] at hk
      exact hnomatch p h (by rw [hd, hk])
    · simp only [List.mem_singleton] at h
      subst h
      intro hk
      rw [hd] at hk
      simp only [Option.getD_some] at hk
      exact hself (by rw [hd, hk])
  exact ⟨_, add_node_dangling_fresh g c hmem hdep hfind hlev, by simp [nodes]⟩

/-- Witness for C3: adding the dangling `caseD` to the graph `graphAB`. -/
theorem claim_C3_witness :
    ∃ w : String,
      add_node graphAB caseD =
        some ({ graphAB with
                graph_dict := graphAB.graph_dict ++
                  [({ caseD with level := some 0 }, none)],
                max_proc := max graphAB.max_proc caseD.n_procs }, some w) ∧
      nodes { graphAB with
              graph_dict := graphAB.graph_dict ++
                [({ caseD with level := some 0 }, none)],
              max_proc := max graphAB.max_proc caseD.n_procs } =
        nodes graphAB ++ [{ caseD with level := some 0 }] :=
  claim_C3 graphAB caseD rfl (by decide) (by decide)
    (by decide) (by decide)

/-- C4: four computable cases with `expected_time` values [3, 3, 3, 3]
at one (level, n_procs) cell, a wall-time budget of 10 minutes and a
non-binding batch-size budget are packed as {first, second, third}
followed by {fourth}; no produced batch has a summed `expected_time`
above 10, and no packing of the four cases into time-bounded batches
can use fewer than the 2 batches produced. -/
theorem claim_C4 (size : Nat) (hsize : 4 ≤ size) (a b c d : Case)
    (ha : a.compute = true ∧ a.is_compiled ≠ "KO" ∧ a.expected_time = 3)
    (hb : b.compute = true ∧ b.is_compiled ≠ "KO" ∧ b.expected_time = 3)
    (hc : c.compute = true ∧ c.is_compiled ≠ "KO" ∧ c.expected_time = 3)
    (hd : d.compute = true ∧ d.is_compiled ≠ "KO" ∧ d.expected_time = 3) :
    run_slurm_batches_cell size 10 [a, b, c, d] = [[a, b, c], [d]] ∧
    (∀ batch ∈ run_slurm_batches_cell size 10 [a, b, c, d],
      (batch.map Case.expected_time).sum ≤ 10) ∧
    (∀ bs : List (List Case), bs.flatten = [a, b, c, d] →
      (∀ batch ∈ bs, (batch.map Case.expected_time).sum ≤ 10) →
      2 ≤ bs.length) := by
  obtain ⟨ha1, ha2, ha3⟩ := ha
  obtain ⟨hb1, hb2, hb3⟩ := hb
  obtain ⟨hc1, hc2, hc3⟩ := hc
  obtain ⟨hd1, hd2, hd3⟩ := hd
  have hs1 : ¬ (size ≤ 1) := by omega
  have hs2 : ¬ (size ≤ 2) := by omega
  have hs3 : ¬ (size ≤ 3) := by omega
  have hmain : run_slurm_batches_cell size 10 [a, b, c, d] = [[a, b, c], [d]] := by
    simp [run_slurm_batches_cell, slurm_pack_step, ha1, ha2, ha3, hb1, hb2, hb3,
      hc1, hc2, hc3, hd1, hd2, hd3, hs1, hs2, hs3]
  refine ⟨hmain, ?_, ?_⟩
  · rw [hmain]
    intro batch hbatch
    rcases List.mem_cons.mp hbatch with rfl | hbatch2
    · simp [ha3, hb3, hc3]
    · rcases List.mem_singleton.mp hbatch2 with rfl
      simp [hd3]
  · intro bs hjoin hbound
    match bs with
    | [] => simp at hjoin
    | [l] =>
      exfalso
      have hl : l = [a, b, c, d] := by simpa using hjoin
      have := hbound l (by simp)
      rw [hl] at this
      simp [ha3, hb3, hc3, hd3] at this
    | l1 :: l2 :: tl => simp

/-- Witness for C4: packing four copies of `caseT3` with batch-size
budget 50 and wall-time budget 10. -/
theorem claim_C4_witness :
    run_slurm_batches_cell 50 10 [caseT3, caseT3, caseT3, caseT3] =
      [[caseT3, caseT3, caseT3], [caseT3]] :=
  (claim_C4 50 (by omega) caseT3 caseT3 caseT3 caseT3
    (by refine ⟨rfl, by decide, rfl⟩) (by refine ⟨rfl, by decide, rfl⟩)
    (by refine ⟨rfl, by decide, rfl⟩) (by refine ⟨rfl, by decide, rfl⟩)).1

lemma extract_step_keep (fl fp : Option Nat) (sub : dependency_graph)
    (p : Case × Option Case) (l0 : Nat) (h : p.1.level = some l0)
    (hkeep : keepCase fl fp p.1 = true) (sub1 : dependency_graph)
    (hadd : add_node sub p.1 = some (sub1, none)) :
    extract_step fl fp sub p = some sub1 := by
  simp only [keepCase, h, Bool.and_eq_true] at hkeep
  obtain ⟨hk1, hk2⟩ := hkeep
  cases fl with
  | none => simp [extract_step, node_filter_l, hk2, hadd]
  | some x =>
    simp only at hk1
    simp [extract_step, node_filter_l, h, hk1, hk2, hadd]

lemma extract_step_skip (fl fp : Option Nat) (sub : dependency_graph)
    (p : Case × Option Case) (l0 : Nat) (h : p.1.level = some l0)
    (hkeep : keepCase fl fp p.1 = false) :
    extract_step fl fp sub p = some sub := by
  cases fl with
  | none =>
    simp only [keepCase, Bool.true_and] at hkeep
    simp [extract_step, node_filter_l, hkeep]
  | some x =>
    simp only [keepCase, h] at hkeep
    simp [extract_step, node_filter_l, h]
    intro h1 h2
    rw [h1] at hkeep
    simp [h2] at hkeep

/-- Folding `extract_step` over entries whose cases all have a computed
level, are absent from the accumulator, and whose dependency keys match
neither the accumulator nor any kept entry: every kept entry is
appended unchanged (original level, no edge) and no warning or raise
occurs. -/
lemma extract_fold_aux (fl fp : Option Nat) (l : List (Case × Option Case)) :
    ∀ sub : dependency_graph,
    (∀ p ∈ l, p.1.level ≠ none) →
    (∀ p ∈ l, ¬ truthyDepends p.1.depends → p.1.level = some 0) →
    List.Pairwise (fun p q => p.1 ≠ q.1) l →
    (∀ p ∈ l, keepCase fl fp p.1 = true → dictFind sub.graph_dict p.1 = none) →
    (∀ p ∈ l, keepCase fl fp p.1 = true → truthyDepends p.1.depends →
      (∀ q ∈ sub.graph_dict, p.1.depends ≠ some q.1.compositeKey) ∧
      (∀ q ∈ l, keepCase fl fp q.1 = true → p.1.depends ≠ some q.1.compositeKey)) →
    ∃ subEnd : dependency_graph,
      l.foldlM (extract_step fl fp) sub = some subEnd ∧
      subEnd.graph_dict = sub.graph_dict ++
        (l.filter (fun p => keepCase fl fp p.1)).map (fun p => (p.1, none)) := by
  induction l with
  | nil => exact fun sub _ _ _ _ _ => ⟨sub, rfl, by simp⟩
  | cons p tl ih =>
    intro sub hlev hfalsy hpw hmem hnm
    obtain ⟨l0, hl0⟩ : ∃ l0, p.1.level = some l0 := by
      cases hpl : p.1.level with
      | none => exact absurd hpl (hlev p (by simp))
      | some v => exact ⟨v, rfl⟩
    obtain ⟨hpwhead, hpwtl⟩ := List.pairwise_cons.mp hpw
    rw [List.foldlM_cons]
    by_cases hkeep : keepCase fl fp p.1 = true
    · have hmem0 : dictFind sub.graph_dict p.1 = none := hmem p (by simp) hkeep
      have hstep : add_node sub p.1 =
          some ({ sub with
                  graph_dict := sub.graph_dict ++ [(p.1, none)],
                  max_proc := max sub.max_proc p.1.n_procs }, none) := by
        by_cases hdep : truthyDepends p.1.depends
        · obtain ⟨d, hd⟩ : ∃ d, p.1.depends = some d := by
            cases hpd : p.1.depends with
            | none => exact absurd hpd hdep.1
            | some v => exact ⟨v, rfl⟩
          have hfind : findNeighbor (sub.graph_dict ++ [(p.1, none)])
              (p.1.depends.getD "") = none := by
            rw [findNeighbor_eq_none_iff]
            intro q hq
            intro hk
            rw [hd] at hk
            simp only [Option.getD_some] at hk
            rcases List.mem_append.mp hq with h | h
            · exact (hnm p (by simp) hkeep hdep).1 q h (by rw [hd, hk])
            · simp only [List.mem_singleton] at h
              subst h
              exact (hnm p (by simp) hkeep hdep).2 p (by simp) hkeep (by rw [hd, hk])
          exact add_node_dangling_stale sub p.1 l0 hmem0 hdep hfind hl0
        · have h0 : p.1.level = some 0 := hfalsy p (by simp) hdep
          have h := add_node_no_depends sub p.1 hmem0 hdep
          rw [update_level_self p.1 0 h0] at h
          exact h
      rw [extract_step_keep fl fp sub p l0 hl0 hkeep _ hstep]
      have hsome :
          (some ({ sub with
                   graph_dict := sub.graph_dict ++ [(p.1, none)],
                   max_proc := max sub.max_proc p.1.n_procs }) >>=
            fun s => tl.foldlM (extract_step fl fp) s) =
          tl.foldlM (extract_step fl fp)
            ({ sub with
               graph_dict := sub.graph_dict ++ [(p.1, none)],
               max_proc := max sub.max_proc p.1.n_procs }) := rfl
      rw [hsome]
      obtain ⟨subEnd, hfold, hdict⟩ := ih
        { sub with
          graph_dict := sub.graph_dict ++ [(p.1, none)],
          max_proc := max sub.max_proc p.1.n_procs }
        (fun q hq => hlev q (List.mem_cons_of_mem _ hq))
        (fun q hq => hfalsy q (List.mem_cons_of_mem _ hq))
        hpwtl
        (by
          intro q hq hkq
          rw [dictFind_eq_none_iff]
          intro r hr
          rcases List.mem_append.mp hr with h | h
          · exact (dictFind_eq_none_iff sub.graph_dict q.1).mp
              (hmem q (List.mem_cons_of_mem _ hq) hkq) r h
          · simp only [List.mem_singleton] at h
            subst h
            exact hpwhead q hq)
        (by
          intro q hq hkq hdq
          refine ⟨?_, ?_⟩
          · intro r hr
            rcases List.mem_append.mp hr with h | h
            · exact (hnm q (List.mem_cons_of_mem _ hq) hkq hdq).1 r h
            · simp only [List.mem_singleton] at h
              subst h
              exact (hnm q (List.mem_cons_of_mem _ hq) hkq hdq).2 p (by simp) hkeep
          · intro r hr hkr
            exact (hnm q (List.mem_cons_of_mem _ hq) hkq hdq).2 r
              (List.mem_cons_of_mem _ hr) hkr)
      refine ⟨subEnd, hfold, ?_⟩
      rw [hdict]
      simp [List.filter_cons, hkeep]
    · have hkeep' : keepCase fl fp p.1 = false := by
        simpa using hkeep
      rw [extract_step_skip fl fp sub p l0 hl0 hkeep']
      have hsome : (some sub >>= fun s => tl.foldlM (extract_step fl fp) s) =
          tl.foldlM (extract_step fl fp) sub := rfl
      rw [hsome]
      obtain ⟨subEnd, hfold, hdict⟩ := ih sub
        (fun q hq => hlev q (List.mem_cons_of_mem _ hq))
        (fun q hq => hfalsy q (List.mem_cons_of_mem _ hq))
        hpwtl
        (fun q hq hkq => hmem q (List.mem_cons_of_mem _ hq) hkq)
        (by
          intro q hq hkq hdq
          refine ⟨(hnm q (List.mem_cons_of_mem _ hq) hkq hdq).1, ?_⟩
          intro r hr hkr
          exact (hnm q (List.mem_cons_of_mem _ hq) hkq hdq).2 r
            (List.mem_cons_of_mem _ hr) hkr)
      refine ⟨subEnd, hfold, ?_⟩
      rw [hdict]
      simp [List.filter_cons, hkeep']

/-- `extract_sub_graph` on a graph whose nodes all have computed levels,
are pairwise distinct, and whose kept nodes never name another kept
node's key: the extraction succeeds and the sub-graph holds exactly the
filtered nodes, unchanged and edge-free. -/
lemma extract_sub_graph_spec (g : dependency_graph) (fl fp : Option Nat)
    (hlev : ∀ p ∈ g.graph_dict, p.1.level ≠ none)
    (hfalsy : ∀ p ∈ g.graph_dict, ¬ truthyDepends p.1.depends → p.1.level = some 0)
    (hpw : List.Pairwise (fun p q => p.1 ≠ q.1) g.graph_dict)
    (hnm : ∀ p ∈ g.graph_dict, keepCase fl fp p.1 = true →
      truthyDepends p.1.depends →
      ∀ q ∈ g.graph_dict, keepCase fl fp q.1 = true →
        p.1.depends ≠ some q.1.compositeKey) :
    ∃ sub : dependency_graph,
      extract_sub_graph g fl fp = some sub ∧
      sub.graph_dict = (g.graph_dict.filter (fun p => keepCase fl fp p.1)).map
        (fun p => (p.1, none)) := by
  obtain ⟨sub, h1, h2⟩ := extract_fold_aux fl fp g.graph_dict ({} : dependency_graph)
    hlev hfalsy hpw
    (fun p _ _ => rfl)
    (fun p hp hk hd => ⟨fun q hq => by simp at hq,
      fun q hq hkq => hnm p hp hk hd q hq hkq⟩)
  exact ⟨sub, h1, by simpa using h2⟩

/-- C6 counterexample: in the graph built from `caseA` and `caseB`
(where B depends on A, level 1), extracting the level-1 sub-graph
filters A out, but B keeps level 1 in the sub-graph — the level does
not become 0 and no dangling-dependency warning is produced (the
extraction succeeds, whereas a warning would raise through the missing
`self.reporting`). -/
theorem claim_C6_counterexample :
    ((addNodeSeq {} [caseA, caseB]).bind
        (fun g => extract_sub_graph g (some 1) none)).map nodes =
      some [caseB1] ∧
    caseB1.level = some 1 ∧ (some 1 : Option Nat) ≠ some 0 := by
  refine ⟨by decide, rfl, by decide⟩

/-- C6 (amended): for a graph whose nodes all carry computed levels
(level-0 when the `depends` is falsy), are pairwise distinct, and whose
kept nodes never name another kept node's composite key,
`extract_sub_graph` succeeds with exactly the filtered nodes, each kept
with its full-graph level unchanged and no edge; in particular a node
whose parent was filtered out keeps its level (it does not become 0)
and no dangling-dependency warning is emitted (a warning would raise
`AttributeError` through the nonexistent `self.reporting`). -/
theorem claim_C6_amended (g : dependency_graph) (fl fp : Option Nat)
    (hlev : ∀ p ∈ g.graph_dict, p.1.level ≠ none)
    (hfalsy : ∀ p ∈ g.graph_dict, ¬ truthyDepends p.1.depends → p.1.level = some 0)
    (hpw : List.Pairwise (fun p q => p.1 ≠ q.1) g.graph_dict)
    (hnm : ∀ p ∈ g.graph_dict, keepCase fl fp p.1 = true →
      truthyDepends p.1.depends →
      ∀ q ∈ g.graph_dict, keepCase fl fp q.1 = true →
        p.1.depends ≠ some q.1.compositeKey) :
    ∃ sub : dependency_graph,
      extract_sub_graph g fl fp = some sub ∧
      sub.graph_dict = (g.graph_dict.filter (fun p => keepCase fl fp p.1)).map
        (fun p => (p.1, none)) ∧
      ∀ p ∈ g.graph_dict, keepCase fl fp p.1 = true →
        (p.1, (none : Option Case)) ∈ sub.graph_dict := by
  obtain ⟨sub, h1, h2⟩ := extract_sub_graph_spec g fl fp hlev hfalsy hpw hnm
  refine ⟨sub, h1, h2, fun p hp hk => ?_⟩
  rw [h2]
  exact List.mem_map_of_mem _ (List.mem_filter.mpr ⟨hp, hk⟩)

/-- Witness for C6 (amended): extracting the level-1 cell of the
concrete graph `graphAB`. -/
theorem claim_C6_amended_witness :
    ∃ sub : dependency_graph,
      extract_sub_graph graphAB (some 1) none = some sub ∧
      sub.graph_dict = (graphAB.graph_dict.filter
        (fun p => keepCase (some 1) none p.1)).map (fun p => (p.1, none)) ∧
      ∀ p ∈ graphAB.graph_dict, keepCase (some 1) none p.1 = true →
        (p.1, (none : Option Case)) ∈ sub.graph_dict :=
  claim_C6_amended graphAB (some 1) none (by decide) (by decide)
    (by decide) (by decide)

lemma count_fold_eq (l : List (Case × Option Case)) (acc : Nat) :
    l.foldl (fun n p => if p.1.expected_time < 5 then n + 1 else n) acc =
      acc + l.countP (fun p => decide (p.1.expected_time < 5)) := by
  induction l generalizing acc with
  | nil => simp
  | cons p tl ih =>
    by_cases h : p.1.expected_time < 5
    · simp [List.countP_cons, h, ih]
      omega
    · simp [List.countP_cons, h, ih]

lemma foldlM_eq_foldl_of_some {α β : Type} (f : β → α → Option β)
    (fPure : β → α → β) (l : List α)
    (h : ∀ a ∈ l, ∀ b, f b a = some (fPure b a)) :
    ∀ b0 : β, l.foldlM f b0 = some (l.foldl fPure b0) := by
  induction l with
  | nil => intro b0; rfl
  | cons x tl ih =>
    intro b0
    rw [List.foldlM_cons, h x (by simp) b0]
    have hbind : (some (fPure b0 x) >>= fun b => tl.foldlM f b) =
        tl.foldlM f (fPure b0 x) := rfl
    rw [hbind, ih (fun a ha b => h a (by simp [ha]) b), List.foldl_cons]

lemma foldl_add_eq_sum (n : Nat) (c : Nat → Nat) :
    ∀ acc : Nat, (List.range n).foldl (fun a i => a + c i) acc =
      acc + ∑ i in Finset.range n, c i := by
  induction n with
  | zero => intro acc; simp
  | succ m ih =>
    intro acc
    rw [List.range_succ, List.foldl_append, ih, Finset.sum_range_succ]
    simp only [List.foldl_cons, List.foldl_nil]
    omega

lemma keepCase_level (x : Nat) (fp : Option Nat) (c : Case)
    (h : keepCase (some x) fp c = true) : c.level = some x := by
  cases hc : c.level with
  | none => simp [keepCase, hc] at h
  | some l =>
    simp only [keepCase, hc, Bool.and_eq_true] at h
    have hlx := h.1
    simp only [beq_iff_eq] at hlx
    rw [hlx]

lemma countP_cell_partition (l : List (Case × Option Case)) (L P : Nat)
    (hlev : ∀ p ∈ l, ∃ l0, p.1.level = some l0 ∧ l0 < L)
    (hproc : ∀ p ∈ l, 1 ≤ p.1.n_procs ∧ p.1.n_procs ≤ P) :
    (∑ level in Finset.range L, ∑ nproc in Finset.range P,
      l.countP (fun p => decide (p.1.expected_time < 5) &&
        keepCase (some level) (some (nproc + 1)) p.1)) =
    l.countP (fun p => decide (p.1.expected_time < 5)) := by
  induction l with
  | nil => simp
  | cons p tl ih =>
    obtain ⟨l0, hl0, hl0L⟩ := hlev p (by simp)
    obtain ⟨hn1, hnP⟩ := hproc p (by simp)
    have htl := ih (fun q hq => hlev q (List.mem_cons_of_mem _ hq))
      (fun q hq => hproc q (List.mem_cons_of_mem _ hq))
    simp only [List.countP_cons]
    have hdist :
        (∑ level in Finset.range L, ∑ nproc in Finset.range P,
          (tl.countP (fun p => decide (p.1.expected_time < 5) &&
            keepCase (some level) (some (nproc + 1)) p.1) +
           if (decide (p.1.expected_time < 5) &&
              keepCase (some level) (some (nproc + 1)) p.1) = true then 1 else 0)) =
        (∑ level in Finset.range L, ∑ nproc in Finset.range P,
          tl.countP (fun p => decide (p.1.expected_time < 5) &&
            keepCase (some level) (some (nproc + 1)) p.1)) +
        (∑ level in Finset.range L, ∑ nproc in Finset.range P,
          if (decide (p.1.expected_time < 5) &&
             keepCase (some level) (some (nproc + 1)) p.1) = true then 1 else 0) := by
      rw [← Finset.sum_add_distrib]
      exact Finset.sum_congr rfl fun a _ => Finset.sum_add_distrib
    rw [hdist, htl]
    have hkeq : ∀ level nproc : Nat,
        keepCase (some level) (some (nproc + 1)) p.1 =
          ((l0 == level) && (p.1.n_procs == nproc + 1)) := by
      intro level nproc
      simp [keepCase, hl0, node_filter_p]
    have hind :
        (∑ level in Finset.range L, ∑ nproc in Finset.range P,
          if (decide (p.1.expected_time < 5) &&
             keepCase (some level) (some (nproc + 1)) p.1) = true then 1 else 0) =
        (if decide (p.1.expected_time < 5) = true then 1 else 0) := by
      simp only [hkeq, Bool.and_eq_true, decide_eq_true_eq, beq_iff_eq]
      have houter : ∀ b ∈ Finset.range L, b ≠ l0 →
          (∑ nproc in Finset.range P,
            if p.1.expected_time < 5 ∧ l0 = b ∧ p.1.n_procs = nproc + 1
            then 1 else 0) = 0 := by
        intro b _ hb
        apply Finset.sum_eq_zero
        intro np _
        have hne : ¬ (l0 = b) := fun h => hb h.symm
        simp [hne]
      rw [Finset.sum_eq_single l0 houter
        (fun habs => absurd (Finset.mem_range.mpr hl0L) habs)]
      rw [Finset.sum_eq_single (p.1.n_procs - 1)]
      · have hcanc : p.1.n_procs - 1 + 1 = p.1.n_procs := Nat.sub_add_cancel hn1
        simp [hcanc]
      · intro b _ hb
        have hne : ¬ (p.1.n_procs = b + 1) := by omega
        simp [hne]
      · intro habs
        exact absurd (Finset.mem_range.mpr (by omega)) habs
    rw [hind]

/-- The nested counting loops of `check_slurm_batches` visit every case
of the graph exactly once, so `count_short_cases` returns the number of
cases with `expected_time < 5` over the whole graph (for a graph
satisfying the invariants established by `add_node`: computed levels
within `max_level`, positive process counts within `max_proc`, pairwise
distinct cases, and no dependency key naming a case at its own level). -/
lemma count_short_cases_eq (g : dependency_graph)
    (hlev : ∀ p ∈ g.graph_dict, ∃ l0, p.1.level = some l0 ∧ l0 ≤ g.max_level)
    (hproc : ∀ p ∈ g.graph_dict, 1 ≤ p.1.n_procs ∧ p.1.n_procs ≤ g.max_proc)
    (hfalsy : ∀ p ∈ g.graph_dict, ¬ truthyDepends p.1.depends → p.1.level = some 0)
    (hpw : List.Pairwise (fun p q => p.1 ≠ q.1) g.graph_dict)
    (hnmlev : ∀ p ∈ g.graph_dict, ∀ q ∈ g.graph_dict, p.1.level = q.1.level →
      q.1.depends ≠ some p.1.compositeKey) :
    count_short_cases g =
      some (g.graph_dict.countP (fun p => decide (p.1.expected_time < 5))) := by
  have hlevne : ∀ p ∈ g.graph_dict, p.1.level ≠ none := by
    intro p hp
    obtain ⟨l0, hl0, _⟩ := hlev p hp
    rw [hl0]
    simp
  have hcell : ∀ level np : Nat,
      ∃ sub : dependency_graph,
        extract_sub_graph g (some level) (some (np + 1)) = some sub ∧
        sub.graph_dict = (g.graph_dict.filter
          (fun p => keepCase (some level) (some (np + 1)) p.1)).map
          (fun p => (p.1, none)) := by
    intro level np
    apply extract_sub_graph_spec g (some level) (some (np + 1)) hlevne hfalsy hpw
    intro p hp hkp _ q hq hkq
    have hpl : p.1.level = some level := keepCase_level level _ p.1 hkp
    have hql : q.1.level = some level := keepCase_level level _ q.1 hkq
    exact hnmlev q hq p hp (hql.trans hpl.symm)
  have hinner : ∀ level : Nat, ∀ np ∈ List.range g.max_proc, ∀ acc2 : Nat,
      (do
        let sub ← extract_sub_graph g (some level) (some (np + 1))
        pure (sub.graph_dict.foldl
          (fun n p => if p.1.expected_time < 5 then n + 1 else n) acc2)) =
      some (acc2 + g.graph_dict.countP
        (fun p => decide (p.1.expected_time < 5) &&
          keepCase (some level) (some (np + 1)) p.1)) := by
    intro level np _ acc2
    obtain ⟨sub, hex, hdict⟩ := hcell level np
    rw [hex]
    have hbind : ((some sub) >>= fun sub =>
        (pure (sub.graph_dict.foldl
          (fun n p => if p.1.expected_time < 5 then n + 1 else n) acc2) :
          Option Nat)) =
        some (sub.graph_dict.foldl
          (fun n p => if p.1.expected_time < 5 then n + 1 else n) acc2) := rfl
    rw [hbind, count_fold_eq, hdict, List.countP_map, List.countP_filter]
    rfl
  have houter : ∀ level ∈ List.range (g.max_level + 1), ∀ acc : Nat,
      ((List.range g.max_proc).foldlM
        (fun acc2 nproc => do
          let sub ← extract_sub_graph g (some level) (some (nproc + 1))
          pure (sub.graph_dict.foldl
            (fun n p => if p.1.expected_time < 5 then n + 1 else n) acc2))
        acc) =
      some (acc + ∑ np in Finset.range g.max_proc,
        g.graph_dict.countP (fun p => decide (p.1.expected_time < 5) &&
          keepCase (some level) (some (np + 1)) p.1)) := by
    intro level _ acc
    rw [foldlM_eq_foldl_of_some _
      (fun acc2 np => acc2 + g.graph_dict.countP
        (fun p => decide (p.1.expected_time < 5) &&
          keepCase (some level) (some (np + 1)) p.1))
      (List.range g.max_proc) (hinner level) acc]
    rw [foldl_add_eq_sum]
  unfold count_short_cases
  rw [foldlM_eq_foldl_of_some _
    (fun acc level => acc + ∑ np in Finset.range g.max_proc,
      g.graph_dict.countP (fun p => decide (p.1.expected_time < 5) &&
        keepCase (some level) (some (np + 1)) p.1))
    (List.range (g.max_level + 1)) houter 0]
  rw [foldl_add_eq_sum]
  rw [Nat.zero_add]
  rw [countP_cell_partition g.graph_dict (g.max_level + 1) g.max_proc
    (fun p hp => by
      obtain ⟨l0, hl0, hle⟩ := hlev p hp
      exact ⟨l0, hl0, by omega⟩)
    hproc]

/-- C5: when the slurm batch size is left at its default value 1,
`check_slurm_batches` raises it to 50 exactly when strictly more than
50 cases of the whole graph have `expected_time < 5` (so with 51 such
cases the effective size becomes 50) and keeps it at 1 otherwise (so
with 49 such cases it stays 1) — for a graph satisfying the `add_node`
invariants. -/
theorem claim_C5 (g : dependency_graph)
    (hlev : ∀ p ∈ g.graph_dict, ∃ l0, p.1.level = some l0 ∧ l0 ≤ g.max_level)
    (hproc : ∀ p ∈ g.graph_dict, 1 ≤ p.1.n_procs ∧ p.1.n_procs ≤ g.max_proc)
    (hfalsy : ∀ p ∈ g.graph_dict, ¬ truthyDepends p.1.depends → p.1.level = some 0)
    (hpw : List.Pairwise (fun p q => p.1 ≠ q.1) g.graph_dict)
    (hnmlev : ∀ p ∈ g.graph_dict, ∀ q ∈ g.graph_dict, p.1.level = q.1.level →
      q.1.depends ≠ some p.1.compositeKey) :
    (50 < g.graph_dict.countP (fun p => decide (p.1.expected_time < 5)) →
      check_slurm_batches g 1 = some 50) ∧
    (g.graph_dict.countP (fun p => decide (p.1.expected_time < 5)) ≤ 50 →
      check_slurm_batches g 1 = some 1) := by
  have hc := count_short_cases_eq g hlev hproc hfalsy hpw hnmlev
  constructor
  · intro h
    simp [check_slurm_batches, hc, h]
  · intro h
    have hnot : ¬ (50 < g.graph_dict.countP
        (fun p => decide (p.1.expected_time < 5))) := by omega
    simp [check_slurm_batches, hc, hnot]

/-- Witness for C5 on the concrete graph `graphEF` (one short case out
of two): the batch size stays 1. -/
theorem claim_C5_witness : check_slurm_batches graphEF 1 = some 1 :=
  (claim_C5 graphEF
    (by
      intro p hp
      simp only [graphEF, List.mem_cons, List.not_mem_nil, or_false] at hp
      rcases hp with rfl | rfl <;> exact ⟨0, rfl, Nat.le_refl 0⟩)
    (by decide) (by decide) (by decide) (by decide)).2 (by decide)

end CodeSaturne
